import Mathlib

/-!
# Verification of `micro-arena.h`

A shallow embedding of the fixed-capacity first-fit arena allocator from
`micro-arena.h` (C99, header-only), together with proofs about its
directory bookkeeping.

Modelling decisions:

* Pointers into the backing buffer are modelled as `Nat` offsets from the
  start of the arena's `mem` buffer (the C code only ever compares such
  pointers for equality and performs in-bounds `char*` arithmetic on them,
  so offsets are a faithful rendering).  The C `NULL` pointer argument of
  `realloc` is modelled with `Option Nat` (`none` = `NULL`); a possibly
  `NULL` arena pointer is modelled with `Option MicroArena` in the
  `...P` wrappers.
* A `MicroArenaChunkList` (a fixed array of `MICRO_ARENA_MAX_NUM_CHUNKS`
  entries plus a length field, where entries at index `>= len` are never
  read) is modelled as the list of its first `len` entries.  The capacity
  check of `micro_arena_chunk_list_add` is kept on the list length.
* `size_t` values are modelled as `Nat`.  The only arithmetic the C code
  performs on unchecked caller input before a bounds test is the
  `nmemb * size` product in `calloc` / `reallocarray`, which is kept
  faithful with an explicit `% 2 ^ 64` reduction; all other arithmetic in
  the code is performed on in-range quantities where `Nat` and `size_t`
  agree.
* The byte contents of the backing buffer are not modelled: every claim
  under consideration is about the `free_chunks` / `used_chunks`
  directories, and no directory decision in the C code depends on buffer
  contents.  `calloc`'s zero fill and `realloc`'s byte copy therefore
  appear only through their directory effects.
-/

/-- `MICRO_ARENA_STACK_MEM_SIZE`: size in bytes of the arena's backing
buffer (default configuration). -/
def MICRO_ARENA_STACK_MEM_SIZE : Nat := 4096

/-- `MICRO_ARENA_MAX_NUM_CHUNKS`: capacity of each chunk directory
(default configuration). -/
def MICRO_ARENA_MAX_NUM_CHUNKS : Nat := 1024

/-- `MicroArenaChunk`: a contiguous byte range, `start` being an offset
into the backing buffer (the C `char* start`) and `size` a byte count. -/
structure MicroArenaChunk where
  start : Nat
  size : Nat
deriving DecidableEq, Repr

/-- `MicroArena`: the two chunk directories of an arena.  Each C
`MicroArenaChunkList` is modelled as the list of its visible entries. -/
structure MicroArena where
  free_chunks : List MicroArenaChunk
  used_chunks : List MicroArenaChunk
deriving DecidableEq, Repr

/-- `micro_arena_chunk_list_reset`: sets the length to zero (entry
contents need not be cleared since the length governs visibility). -/
def micro_arena_chunk_list_reset (_ : List MicroArenaChunk) :
    List MicroArenaChunk := []

/-- `micro_arena_chunk_list_add`: appends an entry, or fails (returns
`NULL`, modelled `none`) when `len + 1 >= MICRO_ARENA_MAX_NUM_CHUNKS`.
The C function mutates the list only on success; failure is modelled by
returning `none` (the caller keeps the unchanged list). -/
def micro_arena_chunk_list_add (chunk_list : List MicroArenaChunk)
    (start size : Nat) : Option (List MicroArenaChunk) :=
  if chunk_list.length + 1 ≥ MICRO_ARENA_MAX_NUM_CHUNKS then none
  else some (chunk_list ++ [⟨start, size⟩])

/-- `micro_arena_chunk_list_remove`: removes the first entry whose
`start` matches, shifting later entries left; no-op when no match. -/
def micro_arena_chunk_list_remove :
    List MicroArenaChunk → Nat → List MicroArenaChunk
  | [], _ => []
  | c :: rest, start =>
    if c.start = start then rest
    else c :: micro_arena_chunk_list_remove rest start

/-- `micro_arena_chunk_list_get`: returns the first entry whose `start`
matches, or `NULL` (modelled `none`). -/
def micro_arena_chunk_list_get :
    List MicroArenaChunk → Nat → Option MicroArenaChunk
  | [], _ => none
  | c :: rest, start =>
    if c.start = start then some c
    else micro_arena_chunk_list_get rest start

/-- Index of the last entry satisfying `p`, mirroring the neighbour scan
in `micro_arena_free`, whose single loop keeps overwriting the
`free_chunk_before` / `free_chunk_after` pointers so that the last match
wins. -/
def findLastIdx (p : MicroArenaChunk → Bool) :
    List MicroArenaChunk → Option Nat
  | [] => none
  | c :: rest =>
    match findLastIdx p rest with
    | some i => some (i + 1)
    | none => if p c then some 0 else none

/-- `micro_arena_init`: resets both directories, then seeds `free` with a
single chunk spanning the whole backing buffer.  (The `add` cannot fail
on an empty directory; the C code ignores its result.) -/
def micro_arena_init (ma : MicroArena) : MicroArena :=
  let f := micro_arena_chunk_list_reset ma.free_chunks
  let u := micro_arena_chunk_list_reset ma.used_chunks
  { free_chunks :=
      match micro_arena_chunk_list_add f 0 MICRO_ARENA_STACK_MEM_SIZE with
      | none => f
      | some f2 => f2
    used_chunks := u }

/-- The scan loop of `micro_arena_malloc`: walk the free directory in
order; skip chunks with `size < requested`; at the first fit, add a used
entry (aborting with `NULL` if the used directory is at capacity, with
nothing yet modified), then advance the free chunk's `start` and shrink
its `size`.  Returns the handle, the new free directory and the new used
directory. -/
def micro_arena_malloc_go (used : List MicroArenaChunk) (size : Nat) :
    List MicroArenaChunk →
      Option (Nat × List MicroArenaChunk × List MicroArenaChunk)
  | [] => none
  | c :: rest =>
    if c.size < size then
      match micro_arena_malloc_go used size rest with
      | none => none
      | some (h, rest2, used2) => some (h, c :: rest2, used2)
    else
      match micro_arena_chunk_list_add used c.start size with
      | none => none
      | some used2 =>
        some (c.start, ⟨c.start + size, c.size - size⟩ :: rest, used2)

/-- `micro_arena_malloc`: first-fit allocation.  Returns the handle (the
new used entry's `start`) and the new arena; on failure returns `none`
with the arena unchanged. -/
def micro_arena_malloc (ma : MicroArena) (size : Nat) :
    Option Nat × MicroArena :=
  match micro_arena_malloc_go ma.used_chunks size ma.free_chunks with
  | none => (none, ma)
  | some (h, free2, used2) =>
    (some h, { free_chunks := free2, used_chunks := used2 })

/-- `micro_arena_free`: releases a handle.  A lookup miss is a silent
no-op.  Otherwise scan the free directory for an `after` neighbour
(`free.start == ptr + size`) and a `before` neighbour
(`ptr == free.start + free.size`), then coalesce exactly as the C code
does — including, in the both-neighbours branch, growing the `before`
entry and then removing that same entry (by its `start`) from the free
directory, leaving the stale `after` entry in place. -/
def micro_arena_free (ma : MicroArena) (ptr : Nat) : MicroArena :=
  match micro_arena_chunk_list_get ma.used_chunks ptr with
  | none => ma
  | some uc =>
    let afterIdx :=
      findLastIdx (fun c => c.start == uc.start + uc.size) ma.free_chunks
    let beforeIdx :=
      findLastIdx (fun c => uc.start == c.start + c.size) ma.free_chunks
    match beforeIdx, afterIdx with
    | some bi, some ai =>
      let b := ma.free_chunks.getD bi ⟨0, 0⟩
      let a := ma.free_chunks.getD ai ⟨0, 0⟩
      let free1 := ma.free_chunks.set bi ⟨b.start, b.size + (uc.size + a.size)⟩
      { free_chunks := micro_arena_chunk_list_remove free1 b.start
        used_chunks := micro_arena_chunk_list_remove ma.used_chunks uc.start }
    | some bi, none =>
      let b := ma.free_chunks.getD bi ⟨0, 0⟩
      { free_chunks := ma.free_chunks.set bi ⟨b.start, b.size + uc.size⟩
        used_chunks := micro_arena_chunk_list_remove ma.used_chunks uc.start }
    | none, some ai =>
      let a := ma.free_chunks.getD ai ⟨0, 0⟩
      { free_chunks := ma.free_chunks.set ai ⟨uc.start, a.size + uc.size⟩
        used_chunks := micro_arena_chunk_list_remove ma.used_chunks uc.start }
    | none, none =>
      { free_chunks :=
          match micro_arena_chunk_list_add ma.free_chunks uc.start uc.size with
          | none => ma.free_chunks
          | some f2 => f2
        used_chunks := micro_arena_chunk_list_remove ma.used_chunks uc.start }

/-- `micro_arena_calloc`: allocates `size * nmemb` bytes (the `size_t`
product wraps modulo `2 ^ 64`, unchecked) and zero-fills them; the zero
fill does not touch the directories. -/
def micro_arena_calloc (ma : MicroArena) (nmemb size : Nat) :
    Option Nat × MicroArena :=
  micro_arena_malloc ma ((size * nmemb) % 2 ^ 64)

/-- `micro_arena_realloc`: `NULL` handle behaves as `malloc`; an unknown
handle fails with the arena unchanged; otherwise allocate the new range
first (failure leaves the old allocation intact), copy the overlapping
bytes (not modelled: directories unaffected), then free the old range. -/
def micro_arena_realloc (ma : MicroArena) (ptr : Option Nat) (size : Nat) :
    Option Nat × MicroArena :=
  match ptr with
  | none => micro_arena_malloc ma size
  | some p =>
    match micro_arena_chunk_list_get ma.used_chunks p with
    | none => (none, ma)
    | some _ =>
      match micro_arena_malloc ma size with
      | (none, ma2) => (none, ma2)
      | (some mem, ma2) => (some mem, micro_arena_free ma2 p)

/-- `micro_arena_reallocarray`: delegates to `realloc` with the wrapped
`size_t` product `nmemb * size`. -/
def micro_arena_reallocarray (ma : MicroArena) (ptr : Option Nat)
    (nmemb size : Nat) : Option Nat × MicroArena :=
  micro_arena_realloc ma ptr ((nmemb * size) % 2 ^ 64)

/-- `micro_arena_init` on a possibly-`NULL` arena pointer: the C function
starts with `if (!ma) return;`. -/
def micro_arena_initP : Option MicroArena → Option MicroArena
  | none => none
  | some ma => some (micro_arena_init ma)

/-- `micro_arena_malloc` on a possibly-`NULL` arena pointer: `NULL`
returns `NULL` before reading any state. -/
def micro_arena_mallocP : Option MicroArena → Nat → Option Nat × Option MicroArena
  | none, _ => (none, none)
  | some ma, size =>
    let r := micro_arena_malloc ma size
    (r.1, some r.2)

/-- `micro_arena_free` on a possibly-`NULL` arena pointer: `NULL` returns
before reading any state. -/
def micro_arena_freeP : Option MicroArena → Nat → Option MicroArena
  | none, _ => none
  | some ma, ptr => some (micro_arena_free ma ptr)

/-- `micro_arena_calloc` on a possibly-`NULL` arena pointer. -/
def micro_arena_callocP : Option MicroArena → Nat → Nat → Option Nat × Option MicroArena
  | none, _, _ => (none, none)
  | some ma, nmemb, size =>
    let r := micro_arena_calloc ma nmemb size
    (r.1, some r.2)

/-- `micro_arena_realloc` on a possibly-`NULL` arena pointer. -/
def micro_arena_reallocP : Option MicroArena → Option Nat → Nat → Option Nat × Option MicroArena
  | none, _, _ => (none, none)
  | some ma, ptr, size =>
    let r := micro_arena_realloc ma ptr size
    (r.1, some r.2)

/-- `micro_arena_reallocarray` on a possibly-`NULL` arena pointer: the C
function has no `NULL` check of its own and delegates to `realloc`,
whose check fires. -/
def micro_arena_reallocarrayP (ma : Option MicroArena) (ptr : Option Nat)
    (nmemb size : Nat) : Option Nat × Option MicroArena :=
  micro_arena_reallocP ma ptr ((nmemb * size) % 2 ^ 64)

/-- One public allocator operation, for reachability statements. -/
inductive ArenaOp where
  | mallocOp (size : Nat)
  | freeOp (ptr : Nat)
  | callocOp (nmemb size : Nat)
  | reallocOp (ptr : Option Nat) (size : Nat)
  | reallocarrayOp (ptr : Option Nat) (nmemb size : Nat)
  | initOp
deriving DecidableEq, Repr

/-- State transformer of one public allocator operation (return values
discarded). -/
def applyOp (ma : MicroArena) : ArenaOp → MicroArena
  | .mallocOp size => (micro_arena_malloc ma size).2
  | .freeOp ptr => micro_arena_free ma ptr
  | .callocOp nmemb size => (micro_arena_calloc ma nmemb size).2
  | .reallocOp ptr size => (micro_arena_realloc ma ptr size).2
  | .reallocarrayOp ptr nmemb size => (micro_arena_reallocarray ma ptr nmemb size).2
  | .initOp => micro_arena_init ma

/-- The arena state right after `micro_arena_init` (the initial contents
of the directories before `init` are irrelevant). -/
def arenaInit : MicroArena := micro_arena_init ⟨[], []⟩

/-- State reached from a freshly initialized arena by a sequence of
public allocator operations. -/
def runOps (ops : List ArenaOp) : MicroArena :=
  ops.foldl applyOp arenaInit

/-- The size handed to the internal allocation step of an operation is
nonzero (trivially true for operations that allocate nothing). -/
def ArenaOp.posSize : ArenaOp → Prop
  | .mallocOp size => 1 ≤ size
  | .freeOp _ => True
  | .callocOp nmemb size => 1 ≤ (size * nmemb) % 2 ^ 64
  | .reallocOp _ size => 1 ≤ size
  | .reallocarrayOp _ nmemb size => 1 ≤ (nmemb * size) % 2 ^ 64
  | .initOp => True

/-- All `start` fields in a directory are pairwise distinct. -/
def startsUnique (l : List MicroArenaChunk) : Prop :=
  List.Pairwise (fun c d => c.start ≠ d.start) l

/-- Byte `x` of the backing buffer lies in one of the arena's recorded
ranges. -/
def coversByte (ma : MicroArena) (x : Nat) : Prop :=
  ∃ c ∈ ma.free_chunks ++ ma.used_chunks, c.start ≤ x ∧ x < c.start + c.size

/-- Strict separation of two byte ranges: one ends strictly before the
other begins (so they neither overlap, touch, nor share an endpoint). -/
def StrictSep (c d : MicroArenaChunk) : Prop :=
  c.start + c.size < d.start ∨ d.start + d.size < c.start

/-- Weak separation of two byte ranges: one ends at or before the start
of the other (non-overlapping as half-open intervals). -/
def WeakSep (c d : MicroArenaChunk) : Prop :=
  c.start + c.size ≤ d.start ∨ d.start + d.size ≤ c.start

/-- The directory well-formedness invariant maintained by the allocator
on traces whose allocation requests are all nonzero: free entries are
pairwise strictly separated (in particular never adjacent), used entries
and free/used pairs are weakly separated, and used entries have nonzero
size. -/
structure ArenaWF (ma : MicroArena) : Prop where
  freeSep : List.Pairwise StrictSep ma.free_chunks
  usedSep : List.Pairwise WeakSep ma.used_chunks
  crossSep : ∀ c ∈ ma.free_chunks, ∀ d ∈ ma.used_chunks, WeakSep c d
  usedPos : ∀ d ∈ ma.used_chunks, 1 ≤ d.size

/-- The allocation/release sequence exercised by the repository's
`test.c`, stopping just before the final release (whose argument, the
10-byte allocation at offset 40, then has a free neighbour on each
side). -/
def testTrace : List ArenaOp :=
  [.mallocOp 40, .mallocOp 10, .mallocOp 69, .freeOp 0, .freeOp 50]

/-- The full allocation/release sequence of the repository's `test.c`:
three allocations, then releases in the order first, third, second. -/
def testTraceFull : List ArenaOp :=
  [.mallocOp 40, .mallocOp 10, .mallocOp 69, .freeOp 0, .freeOp 50,
    .freeOp 40]

/-- 1023 one-byte allocations: fills the used directory to its usable
capacity (`MICRO_ARENA_MAX_NUM_CHUNKS − 1` entries) while plenty of free
space remains. -/
def capTrace : List ArenaOp := List.replicate 1023 (.mallocOp 1)

-- Sanity checks of the embedding against the repository's test program
-- (`test.c`): directory lengths after each call.

example : arenaInit = ⟨[⟨0, 4096⟩], []⟩ := by decide

example :
    runOps [.mallocOp 40, .mallocOp 10, .mallocOp 69] =
      ⟨[⟨119, 3977⟩], [⟨0, 40⟩, ⟨40, 10⟩, ⟨50, 69⟩]⟩ := by decide

example :
    runOps [.mallocOp 40, .mallocOp 10, .mallocOp 69, .freeOp 0] =
      ⟨[⟨119, 3977⟩, ⟨0, 40⟩], [⟨40, 10⟩, ⟨50, 69⟩]⟩ := by decide

example :
    runOps [.mallocOp 40, .mallocOp 10, .mallocOp 69, .freeOp 0, .freeOp 50] =
      ⟨[⟨50, 4046⟩, ⟨0, 40⟩], [⟨40, 10⟩]⟩ := by decide

example :
    runOps [.mallocOp 40, .mallocOp 10, .mallocOp 69, .freeOp 0, .freeOp 50,
      .freeOp 40] = ⟨[⟨50, 4046⟩], []⟩ := by decide

/-! ## Basic directory lemmas -/

theorem chunk_list_get_eq_none_iff (l : List MicroArenaChunk) (s : Nat) :
    micro_arena_chunk_list_get l s = none ↔ ∀ c ∈ l, c.start ≠ s := by
  induction l with
  | nil => simp [micro_arena_chunk_list_get]
  | cons c rest ih =>
    by_cases h : c.start = s
    · simp [micro_arena_chunk_list_get, h]
    · simp [micro_arena_chunk_list_get, h, ih]

theorem chunk_list_get_some {l : List MicroArenaChunk} {s : Nat}
    {c : MicroArenaChunk} (h : micro_arena_chunk_list_get l s = some c) :
    c ∈ l ∧ c.start = s := by
  induction l with
  | nil => simp [micro_arena_chunk_list_get] at h
  | cons a rest ih =>
    by_cases ha : a.start = s
    · simp only [micro_arena_chunk_list_get, if_pos ha, Option.some.injEq] at h
      subst h
      exact ⟨List.mem_cons_self a rest, ha⟩
    · simp only [micro_arena_chunk_list_get, if_neg ha] at h
      rcases ih h with ⟨hm, hs⟩
      exact ⟨List.mem_cons_of_mem a hm, hs⟩

theorem chunk_list_remove_sublist (l : List MicroArenaChunk) (s : Nat) :
    (micro_arena_chunk_list_remove l s).Sublist l := by
  induction l with
  | nil => simp [micro_arena_chunk_list_remove]
  | cons a rest ih =>
    by_cases ha : a.start = s
    · simp only [micro_arena_chunk_list_remove, if_pos ha]
      exact List.sublist_cons_self a rest
    · simp only [micro_arena_chunk_list_remove, if_neg ha]
      exact List.Sublist.cons₂ a ih

theorem chunk_list_remove_of_forall_ne {l : List MicroArenaChunk} {s : Nat}
    (h : ∀ c ∈ l, c.start ≠ s) : micro_arena_chunk_list_remove l s = l := by
  induction l with
  | nil => rfl
  | cons a rest ih =>
    have ha : a.start ≠ s := h a (List.mem_cons_self a rest)
    simp only [micro_arena_chunk_list_remove, if_neg ha]
    rw [ih fun c hc => h c (List.mem_cons_of_mem a hc)]

theorem mem_chunk_list_remove_start_ne {l : List MicroArenaChunk} {s : Nat}
    (hu : startsUnique l) {c : MicroArenaChunk}
    (hc : c ∈ micro_arena_chunk_list_remove l s) : c.start ≠ s := by
  induction l with
  | nil => simp [micro_arena_chunk_list_remove] at hc
  | cons a rest ih =>
    have hu' : List.Pairwise (fun c d => c.start ≠ d.start) (a :: rest) := hu
    rcases List.pairwise_cons.mp hu' with ⟨hhead, htail⟩
    by_cases ha : a.start = s
    · simp only [micro_arena_chunk_list_remove, if_pos ha] at hc
      intro hcs
      exact hhead c hc (ha.trans hcs.symm)
    · simp only [micro_arena_chunk_list_remove, if_neg ha] at hc
      rcases List.mem_cons.mp hc with hc | hc
      · exact hc ▸ ha
      · exact ih htail hc

theorem chunk_list_remove_eq_eraseIdx {l : List MicroArenaChunk} {s : Nat}
    (hu : startsUnique l) :
    ∀ i (hi : i < l.length), (l.get ⟨i, hi⟩).start = s →
      micro_arena_chunk_list_remove l s = l.eraseIdx i := by
  induction l with
  | nil => intro i hi; simp at hi
  | cons a rest ih =>
    have hu' : List.Pairwise (fun c d => c.start ≠ d.start) (a :: rest) := hu
    rcases List.pairwise_cons.mp hu' with ⟨hhead, htail⟩
    intro i hi his
    match i with
    | 0 =>
      simp only [List.get] at his
      simp [micro_arena_chunk_list_remove, his, List.eraseIdx]
    | j + 1 =>
      simp only [List.get] at his
      have hj : j < rest.length := Nat.lt_of_succ_lt_succ hi
      have hmem : rest.get ⟨j, hj⟩ ∈ rest := rest.get_mem _ _
      have ha : a.start ≠ s := by
        intro has
        exact hhead _ hmem (has.trans his.symm)
      simp only [micro_arena_chunk_list_remove, if_neg ha, List.eraseIdx]
      rw [ih htail j hj his]

theorem findLastIdx_eq_none_iff (p : MicroArenaChunk → Bool)
    (l : List MicroArenaChunk) :
    findLastIdx p l = none ↔ ∀ c ∈ l, p c = false := by
  induction l with
  | nil => simp [findLastIdx]
  | cons a rest ih =>
    simp only [findLastIdx, List.forall_mem_cons]
    cases h : findLastIdx p rest with
    | some i =>
      constructor
      · intro hfalse; exact absurd hfalse (by simp)
      · rintro ⟨_, hall⟩
        have hnone : findLastIdx p rest = none := ih.mpr hall
        rw [hnone] at h
        exact absurd h (by simp)
    | none =>
      have hall := ih.mp h
      by_cases hp : p a
      · simp [hp]
      · have hp' : p a = false := by simpa using hp
        simp only [h, hp', Bool.false_eq_true, if_false]
        exact ⟨fun _ => ⟨trivial, hall⟩, fun _ => trivial⟩

theorem findLastIdx_some {p : MicroArenaChunk → Bool}
    {l : List MicroArenaChunk} {i : Nat} (h : findLastIdx p l = some i) :
    ∃ hi : i < l.length, p (l.get ⟨i, hi⟩) = true := by
  induction l generalizing i with
  | nil => simp [findLastIdx] at h
  | cons a rest ih =>
    cases hr : findLastIdx p rest with
    | some j =>
      simp only [findLastIdx, hr, Option.some.injEq] at h
      subst h
      rcases ih hr with ⟨hj, hpj⟩
      exact ⟨Nat.succ_lt_succ hj, hpj⟩
    | none =>
      simp only [findLastIdx, hr] at h
      by_cases hp : p a
      · simp only [if_pos hp, Option.some.injEq] at h
        subst h
        exact ⟨Nat.succ_pos _, hp⟩
      · simp [if_neg hp] at h

/-! ## Claim theorems: initialization, invalid release, directory add,
null arena, and the defective coalescing branch -/

/-- C6: After `initialize(arena)`, the free directory contains exactly
one entry whose start is the beginning of the backing buffer and whose
size is the full buffer size, and the used directory is empty;
re-initialization from any prior state re-establishes exactly this
configuration. -/
theorem C6_init_canonical (ma : MicroArena) :
    micro_arena_init ma =
      { free_chunks := [⟨0, MICRO_ARENA_STACK_MEM_SIZE⟩], used_chunks := [] } := by
  rfl

/-- C7: `release(arena, ptr)` with a `ptr` matching no entry of the used
directory (a handle never returned by `allocate`, or one already
released) returns leaving both directories — lengths and contents —
unchanged. -/
theorem C7_free_unknown_handle_noop (ma : MicroArena) (ptr : Nat)
    (h : ∀ c ∈ ma.used_chunks, c.start ≠ ptr) :
    micro_arena_free ma ptr = ma := by
  have hg : micro_arena_chunk_list_get ma.used_chunks ptr = none :=
    (chunk_list_get_eq_none_iff _ _).mpr h
  unfold micro_arena_free
  rw [hg]

/-- Witness for C7 at a concrete input: releasing the never-allocated
handle 4242 on a freshly initialized arena changes nothing. -/
theorem C7_free_unknown_handle_noop_witness :
    (∀ c ∈ arenaInit.used_chunks, c.start ≠ 4242) ∧
      micro_arena_free arenaInit 4242 = arenaInit :=
  ⟨by decide, C7_free_unknown_handle_noop arenaInit 4242 (by decide)⟩

/-- C9: directory `add(start, size)` fails (returns the null signal)
exactly when `length + 1 >= capacity`, capping usable entries at
`capacity − 1`; a failed add changes nothing (modelled by `none`: the C
function returns before any write), and a successful add appends the new
entry, keeping all existing entries and increasing the length by one. -/
theorem C9_chunk_list_add_capacity (l : List MicroArenaChunk) (s z : Nat) :
    (micro_arena_chunk_list_add l s z = none ↔
        l.length + 1 ≥ MICRO_ARENA_MAX_NUM_CHUNKS) ∧
      ∀ l2, micro_arena_chunk_list_add l s z = some l2 →
        l2 = l ++ [⟨s, z⟩] ∧ l2.length = l.length + 1 ∧
          l2.length ≤ MICRO_ARENA_MAX_NUM_CHUNKS - 1 := by
  by_cases h : l.length + 1 ≥ MICRO_ARENA_MAX_NUM_CHUNKS
  · constructor
    · simp [micro_arena_chunk_list_add, h]
    · intro l2 hl2
      simp [micro_arena_chunk_list_add, h] at hl2
  · constructor
    · simp [micro_arena_chunk_list_add, h]
    · intro l2 hl2
      simp only [micro_arena_chunk_list_add, if_neg h, Option.some.injEq] at hl2
      subst hl2
      refine ⟨rfl, by simp, ?_⟩
      simp only [MICRO_ARENA_MAX_NUM_CHUNKS] at h ⊢
      simp only [List.length_append, List.length_cons, List.length_nil]
      omega

/-- C10: every public operation called with a `NULL` arena pointer is a
total no-op: `init` and `free` return without touching any state, and
`malloc`, `calloc`, `realloc` and `reallocarray` return `NULL`, with no
state read or written. -/
theorem C10_null_arena_noop (sz nmemb s ptr : Nat) (op : Option Nat) :
    micro_arena_initP none = none ∧
      micro_arena_mallocP none sz = (none, none) ∧
      micro_arena_freeP none ptr = none ∧
      micro_arena_callocP none nmemb s = (none, none) ∧
      micro_arena_reallocP none op sz = (none, none) ∧
      micro_arena_reallocarrayP none op nmemb s = (none, none) :=
  ⟨rfl, rfl, rfl, rfl, rfl, rfl⟩

/-- C1 (code bug): on the state reached by the repository's own test
sequence just before its final release, the handle 40 (size 10) has a
free neighbour ending at 40 (namely `⟨0, 40⟩`) and a free neighbour
starting at 40 + 10 (namely `⟨50, 4046⟩`); releasing it removes the used
entry, but the free directory ends up as `[⟨50, 4046⟩]` — the stale
`after` entry — because the code removes the just-merged `before` entry
instead of the `after` entry.  No free entry covers the combined range
`[0, 4096)` afterwards, contradicting the claim. -/
theorem C1_free_both_neighbors_loses_merged_entry :
    (∃ c ∈ (runOps testTrace).free_chunks, c.start + c.size = 40) ∧
      (∃ c ∈ (runOps testTrace).free_chunks, c.start = 40 + 10) ∧
      micro_arena_chunk_list_get (runOps testTrace).used_chunks 40 =
        some ⟨40, 10⟩ ∧
      micro_arena_free (runOps testTrace) 40 =
        { free_chunks := [⟨50, 4046⟩], used_chunks := [] } ∧
      ¬ ∃ c ∈ (micro_arena_free (runOps testTrace) 40).free_chunks,
          c.start = 0 ∧ c.start + c.size = 4096 := by
  decide

/-- C2 (code bug): after the repository's own test sequence — a sequence
of `allocate` and `release` calls from `initialize` — byte 0 of the
backing buffer is covered by neither directory, so the union of the
recorded ranges is not the full buffer range. -/
theorem C2_tiling_violated_on_reachable_state :
    0 < MICRO_ARENA_STACK_MEM_SIZE ∧ ¬ coversByte (runOps testTraceFull) 0 := by
  constructor
  · decide
  · unfold coversByte
    decide

/-- C3 counterexample: two zero-size allocations (the spec declares a
request for size zero valid) give two used entries with the same start,
so starts are not unique within the used directory. -/
theorem C3_duplicate_start_counterexample :
    ¬ startsUnique (runOps [.mallocOp 0, .mallocOp 0]).used_chunks := by
  unfold startsUnique
  decide

/-! ## Characterization of `micro_arena_malloc` -/

theorem micro_arena_malloc_go_eq_none_iff (used : List MicroArenaChunk)
    (sz : Nat) (free : List MicroArenaChunk) :
    micro_arena_malloc_go used sz free = none ↔
      (∀ c ∈ free, c.size < sz) ∨
        ((∃ c ∈ free, sz ≤ c.size) ∧
          used.length + 1 ≥ MICRO_ARENA_MAX_NUM_CHUNKS) := by
  induction free with
  | nil => simp [micro_arena_malloc_go]
  | cons c rest ih =>
    by_cases h : c.size < sz
    · have hns : ¬ sz ≤ c.size := not_le.mpr h
      have hstep : micro_arena_malloc_go used sz (c :: rest) = none ↔
          micro_arena_malloc_go used sz rest = none := by
        simp only [micro_arena_malloc_go, if_pos h]
        cases micro_arena_malloc_go used sz rest with
        | none => simp
        | some r => simp
      rw [hstep, ih]
      simp only [List.forall_mem_cons, List.exists_mem_cons_iff, hns,
        false_or]
      tauto
    · have hle : sz ≤ c.size := Nat.le_of_not_lt h
      simp only [micro_arena_malloc_go, if_neg h, List.forall_mem_cons,
        List.exists_mem_cons_iff]
      by_cases hcap : used.length + 1 ≥ MICRO_ARENA_MAX_NUM_CHUNKS
      · simp only [micro_arena_chunk_list_add, if_pos hcap]
        constructor
        · intro _
          exact Or.inr ⟨Or.inl hle, hcap⟩
        · intro _
          trivial
      · simp only [micro_arena_chunk_list_add, if_neg hcap]
        constructor
        · intro hx
          exact absurd hx (by simp)
        · rintro (⟨hcsz, _⟩ | ⟨_, hc⟩)
          · exact absurd hcsz h
          · exact absurd hc hcap

theorem micro_arena_malloc_go_first_fit (used : List MicroArenaChunk)
    (sz : Nat) :
    ∀ (free : List MicroArenaChunk) (i : Nat) (hi : i < free.length),
      sz ≤ free[i].size →
      (∀ j (hj : j < free.length), j < i → free[j].size < sz) →
      used.length + 1 < MICRO_ARENA_MAX_NUM_CHUNKS →
      micro_arena_malloc_go used sz free =
        some (free[i].start,
          free.set i ⟨free[i].start + sz, free[i].size - sz⟩,
          used ++ [⟨free[i].start, sz⟩]) := by
  intro free
  induction free with
  | nil => intro i hi; simp at hi
  | cons c rest ih =>
    intro i hi hfit hfirst hcap
    match i with
    | 0 =>
      simp only [List.getElem_cons_zero] at hfit ⊢
      have hno : ¬ c.size < sz := not_lt.mpr hfit
      have hadd : micro_arena_chunk_list_add used c.start sz =
          some (used ++ [⟨c.start, sz⟩]) := by
        simp [micro_arena_chunk_list_add, not_le.mpr hcap]
      simp [micro_arena_malloc_go, if_neg hno, hadd, List.set]
    | j + 1 =>
      have hj : j < rest.length := Nat.lt_of_succ_lt_succ hi
      have hc : c.size < sz :=
        hfirst 0 (Nat.succ_pos _) (Nat.succ_pos _)
      simp only [List.getElem_cons_succ] at hfit ⊢
      have hrec := ih j hj hfit
        (fun k hk hkj =>
          by
            have := hfirst (k + 1) (Nat.succ_lt_succ hk) (Nat.succ_lt_succ hkj)
            simpa using this)
        hcap
      simp [micro_arena_malloc_go, if_pos hc, hrec, List.set]

theorem micro_arena_malloc_eq_none_iff (ma : MicroArena) (sz : Nat) :
    (micro_arena_malloc ma sz).1 = none ↔
      (∀ c ∈ ma.free_chunks, c.size < sz) ∨
        ma.used_chunks.length + 1 ≥ MICRO_ARENA_MAX_NUM_CHUNKS := by
  have hgo := micro_arena_malloc_go_eq_none_iff ma.used_chunks sz ma.free_chunks
  have hfst : (micro_arena_malloc ma sz).1 = none ↔
      micro_arena_malloc_go ma.used_chunks sz ma.free_chunks = none := by
    unfold micro_arena_malloc
    cases micro_arena_malloc_go ma.used_chunks sz ma.free_chunks with
    | none => simp
    | some r => simp
  rw [hfst, hgo]
  constructor
  · rintro (hall | ⟨_, hcap⟩)
    · exact Or.inl hall
    · exact Or.inr hcap
  · rintro (hall | hcap)
    · exact Or.inl hall
    · by_cases hall : ∀ c ∈ ma.free_chunks, c.size < sz
      · exact Or.inl hall
      · push_neg at hall
        rcases hall with ⟨c, hc, hle⟩
        exact Or.inr ⟨⟨c, hc, hle⟩, hcap⟩

theorem micro_arena_malloc_none_unchanged (ma : MicroArena) (sz : Nat)
    (h : (micro_arena_malloc ma sz).1 = none) :
    (micro_arena_malloc ma sz).2 = ma := by
  cases hgo : micro_arena_malloc_go ma.used_chunks sz ma.free_chunks with
  | none => simp [micro_arena_malloc, hgo]
  | some r =>
    obtain ⟨h1, free2, used2⟩ := r
    simp [micro_arena_malloc, hgo] at h

theorem micro_arena_malloc_spec (ma : MicroArena) (sz i : Nat)
    (hi : i < ma.free_chunks.length)
    (hfit : sz ≤ ma.free_chunks[i].size)
    (hfirst : ∀ j (hj : j < ma.free_chunks.length), j < i →
      ma.free_chunks[j].size < sz)
    (hcap : ma.used_chunks.length + 1 < MICRO_ARENA_MAX_NUM_CHUNKS) :
    micro_arena_malloc ma sz =
      (some ma.free_chunks[i].start,
        { free_chunks := ma.free_chunks.set i
            ⟨ma.free_chunks[i].start + sz, ma.free_chunks[i].size - sz⟩
          used_chunks := ma.used_chunks ++ [⟨ma.free_chunks[i].start, sz⟩] }) := by
  have hgo := micro_arena_malloc_go_first_fit ma.used_chunks sz
    ma.free_chunks i hi hfit hfirst hcap
  unfold micro_arena_malloc
  rw [hgo]

/-! ## A reachable state with a full used directory -/

theorem runOps_append (ops : List ArenaOp) (op : ArenaOp) :
    runOps (ops ++ [op]) = applyOp (runOps ops) op := by
  unfold runOps
  rw [List.foldl_append]
  rfl

theorem capTrace_state (k : Nat) (hk : k ≤ 1023) :
    runOps (List.replicate k (.mallocOp 1)) =
      { free_chunks := [⟨k, 4096 - k⟩]
        used_chunks := (List.range k).map fun i => ⟨i, 1⟩ } := by
  induction k with
  | zero => rfl
  | succ n ih =>
    have hn : n ≤ 1023 := by omega
    rw [List.replicate_succ' n (ArenaOp.mallocOp 1), runOps_append, ih hn]
    show (micro_arena_malloc _ 1).2 = _
    have hlen : ((List.range n).map fun i =>
        (⟨i, 1⟩ : MicroArenaChunk)).length = n := by simp
    have hcap : ((List.range n).map fun i =>
        (⟨i, 1⟩ : MicroArenaChunk)).length + 1 < MICRO_ARENA_MAX_NUM_CHUNKS := by
      rw [hlen]
      simp only [MICRO_ARENA_MAX_NUM_CHUNKS]
      omega
    have hfit : 1 ≤ (4096 : Nat) - n := by omega
    have hspec := micro_arena_malloc_spec
      { free_chunks := [⟨n, 4096 - n⟩]
        used_chunks := (List.range n).map fun i => ⟨i, 1⟩ }
      1 0 (by simp) (by simpa using hfit)
      (fun j hj hj0 => absurd hj0 (Nat.not_lt_zero j)) hcap
    rw [hspec]
    simp only [List.getElem_cons_zero, List.set]
    have hrange : List.range (n + 1) = List.range n ++ [n] := by
      rw [List.range_succ]
    rw [hrange, List.map_append]
    have hsz : 4096 - n - 1 = 4096 - (n + 1) := by omega
    simp [hsz]

/-! ## Claims about allocation failure and success -/

/-- C4 (amended): `allocate(arena, size)` returns the fail result exactly
when no single free entry has `size ≥` the requested size **or** the used
directory is at capacity (`length + 1 ≥ MICRO_ARENA_MAX_NUM_CHUNKS`); on
such a failure neither directory is changed. -/
theorem C4_malloc_fail_iff (ma : MicroArena) (sz : Nat) :
    ((micro_arena_malloc ma sz).1 = none ↔
        (∀ c ∈ ma.free_chunks, c.size < sz) ∨
          ma.used_chunks.length + 1 ≥ MICRO_ARENA_MAX_NUM_CHUNKS) ∧
      ((micro_arena_malloc ma sz).1 = none →
        (micro_arena_malloc ma sz).2 = ma) :=
  ⟨micro_arena_malloc_eq_none_iff ma sz,
    micro_arena_malloc_none_unchanged ma sz⟩

/-- C4 counterexample: on the reachable state after 1023 one-byte
allocations the free directory still holds an entry of size 3073 ≥ 1,
yet `allocate(arena, 1)` fails — the claim's "exactly when no single
free entry is large enough" is wrong when the used directory is full. -/
theorem C4_fail_despite_fitting_entry :
    (∃ c ∈ (runOps capTrace).free_chunks, 1 ≤ c.size) ∧
      (micro_arena_malloc (runOps capTrace) 1).1 = none := by
  have hs : runOps capTrace =
      { free_chunks := [⟨1023, 4096 - 1023⟩]
        used_chunks := (List.range 1023).map fun i => ⟨i, 1⟩ } :=
    capTrace_state 1023 (by omega)
  rw [hs]
  constructor
  · exact ⟨⟨1023, 4096 - 1023⟩, by simp, by decide⟩
  · rw [micro_arena_malloc_eq_none_iff]
    refine Or.inr ?_
    simp [MICRO_ARENA_MAX_NUM_CHUNKS]

/-- C5 (amended): for every arena whose free directory contains an entry
of size ≥ the requested size **and whose used directory is not at
capacity**, `allocate` picks the first qualifying free entry in directory
order, appends a used entry with that entry's current start and the
requested size, advances the free entry's start by the requested size and
shrinks its size by the same amount (a zero-size free entry stays in
place), and returns the new used entry's start. -/
theorem C5_malloc_first_fit (ma : MicroArena) (sz i : Nat)
    (hi : i < ma.free_chunks.length)
    (hfit : sz ≤ ma.free_chunks[i].size)
    (hfirst : ∀ j (hj : j < ma.free_chunks.length), j < i →
      ma.free_chunks[j].size < sz)
    (hcap : ma.used_chunks.length + 1 < MICRO_ARENA_MAX_NUM_CHUNKS) :
    micro_arena_malloc ma sz =
      (some ma.free_chunks[i].start,
        { free_chunks := ma.free_chunks.set i
            ⟨ma.free_chunks[i].start + sz, ma.free_chunks[i].size - sz⟩
          used_chunks := ma.used_chunks ++ [⟨ma.free_chunks[i].start, sz⟩] }) :=
  micro_arena_malloc_spec ma sz i hi hfit hfirst hcap

/-- Witness for C5 at a concrete input: allocating 40 bytes from a fresh
arena uses free entry 0 and leaves the arena in the expected state. -/
theorem C5_malloc_first_fit_witness :
    micro_arena_malloc arenaInit 40 =
      (some 0, { free_chunks := [⟨40, 4056⟩], used_chunks := [⟨0, 40⟩] }) := by
  have h := C5_malloc_first_fit arenaInit 40 0 (by decide) (by decide)
    (fun j hj hj0 => absurd hj0 (Nat.not_lt_zero j)) (by decide)
  rw [h]
  decide

/-- C5 counterexample: on the reachable state after 1023 one-byte
allocations, a free entry of size 3073 ≥ 2 exists, yet `allocate(arena,
2)` returns the fail result instead of that entry's start — the claim
omits the used-directory capacity precondition. -/
theorem C5_no_alloc_despite_fitting_entry :
    (runOps capTrace).free_chunks = [⟨1023, 3073⟩] ∧
      (micro_arena_malloc (runOps capTrace) 2).1 = none := by
  have hs : runOps capTrace =
      { free_chunks := [⟨1023, 4096 - 1023⟩]
        used_chunks := (List.range 1023).map fun i => ⟨i, 1⟩ } :=
    capTrace_state 1023 (by omega)
  rw [hs]
  constructor
  · decide
  · rw [micro_arena_malloc_eq_none_iff]
    refine Or.inr ?_
    simp [MICRO_ARENA_MAX_NUM_CHUNKS]

/-- C8: if `ptr` has a matching used entry and the internal allocate step
of `resize(arena, ptr, newSize)` fails, then `resize` returns the fail
result with the arena unchanged: the old used entry for `ptr` is still
present, and a subsequent `release(arena, ptr)` behaves exactly as it
would have before the failed resize. -/
theorem C8_realloc_alloc_fail_nondestructive (ma : MicroArena) (p sz : Nat)
    (uc : MicroArenaChunk)
    (hget : micro_arena_chunk_list_get ma.used_chunks p = some uc)
    (hfail : (micro_arena_malloc ma sz).1 = none) :
    micro_arena_realloc ma (some p) sz = (none, ma) ∧
      micro_arena_chunk_list_get
        (micro_arena_realloc ma (some p) sz).2.used_chunks p = some uc ∧
      micro_arena_free (micro_arena_realloc ma (some p) sz).2 p =
        micro_arena_free ma p := by
  have hst : (micro_arena_malloc ma sz).2 = ma :=
    micro_arena_malloc_none_unchanged ma sz hfail
  have hms : micro_arena_malloc ma sz = (none, ma) := by
    have := Prod.mk.eta (p := micro_arena_malloc ma sz)
    rw [← this, hfail, hst]
  have hr : micro_arena_realloc ma (some p) sz = (none, ma) := by
    unfold micro_arena_realloc
    simp only [hget, hms]
  refine ⟨hr, ?_, ?_⟩
  · rw [hr]
    exact hget
  · rw [hr]

/-- Witness for C8 at a concrete input: in the arena with one 40-byte
allocation at 0 and only 5 free bytes, resizing handle 0 to 100 bytes
fails and leaves everything as it was. -/
theorem C8_realloc_alloc_fail_nondestructive_witness :
    micro_arena_realloc ⟨[⟨40, 5⟩], [⟨0, 40⟩]⟩ (some 0) 100 =
        (none, ⟨[⟨40, 5⟩], [⟨0, 40⟩]⟩) ∧
      micro_arena_chunk_list_get
        (micro_arena_realloc ⟨[⟨40, 5⟩], [⟨0, 40⟩]⟩ (some 0) 100).2.used_chunks
        0 = some ⟨0, 40⟩ ∧
      micro_arena_free
          (micro_arena_realloc ⟨[⟨40, 5⟩], [⟨0, 40⟩]⟩ (some 0) 100).2 0 =
        micro_arena_free ⟨[⟨40, 5⟩], [⟨0, 40⟩]⟩ 0 :=
  C8_realloc_alloc_fail_nondestructive ⟨[⟨40, 5⟩], [⟨0, 40⟩]⟩ 0 100 ⟨0, 40⟩
    (by decide) (by decide)

/-! ## The directory well-formedness invariant -/

theorem strictSep_symm : Symmetric StrictSep := by
  intro c d h
  rcases h with h | h
  · exact Or.inr h
  · exact Or.inl h

theorem weakSep_symm : Symmetric WeakSep := by
  intro c d h
  rcases h with h | h
  · exact Or.inr h
  · exact Or.inl h

theorem startsUnique_of_strictSep {l : List MicroArenaChunk}
    (h : List.Pairwise StrictSep l) : startsUnique l := by
  refine h.imp ?_
  intro c d hsep
  rcases hsep with hs | hs
  · have : c.start < d.start := Nat.lt_of_le_of_lt (Nat.le_add_right _ _) hs
    omega
  · have : d.start < c.start := Nat.lt_of_le_of_lt (Nat.le_add_right _ _) hs
    omega

theorem startsUnique_used_of_wf {ma : MicroArena} (wf : ArenaWF ma) :
    startsUnique ma.used_chunks := by
  refine List.Pairwise.imp_of_mem ?_ wf.usedSep
  intro c d hc hd hsep
  have hcpos := wf.usedPos c hc
  have hdpos := wf.usedPos d hd
  rcases hsep with hs | hs
  · omega
  · omega

theorem eraseIdx_set_same (l : List MicroArenaChunk) (x : MicroArenaChunk) :
    ∀ i, (l.set i x).eraseIdx i = l.eraseIdx i := by
  induction l with
  | nil => intro i; rfl
  | cons a rest ih =>
    intro i
    match i with
    | 0 => rfl
    | j + 1 =>
      simp only [List.set, List.eraseIdx]
      rw [ih j]

theorem micro_arena_malloc_go_some_inv (used : List MicroArenaChunk)
    (sz : Nat) :
    ∀ (free : List MicroArenaChunk)
      (r : Nat × List MicroArenaChunk × List MicroArenaChunk),
      micro_arena_malloc_go used sz free = some r →
      ∃ i, ∃ hi : i < free.length, sz ≤ free[i].size ∧
        r.2.1 = free.set i ⟨free[i].start + sz, free[i].size - sz⟩ ∧
        r.2.2 = used ++ [⟨free[i].start, sz⟩] := by
  intro free
  induction free with
  | nil => intro r hr; simp [micro_arena_malloc_go] at hr
  | cons c rest ih =>
    intro r hr
    by_cases h : c.size < sz
    · simp only [micro_arena_malloc_go, if_pos h] at hr
      cases hrec : micro_arena_malloc_go used sz rest with
      | none => rw [hrec] at hr; simp at hr
      | some r2 =>
        rw [hrec] at hr
        obtain ⟨h2, rest2, used2⟩ := r2
        simp only [Option.some.injEq] at hr
        subst hr
        rcases ih (h2, rest2, used2) hrec with ⟨i, hi, hfit, hfree, hused⟩
        refine ⟨i + 1, Nat.succ_lt_succ hi, ?_, ?_, ?_⟩
        · simpa using hfit
        · simp only at hfree hused ⊢
          rw [List.getElem_cons_succ, List.set]
          rw [hfree]
        · simpa using hused
    · simp only [micro_arena_malloc_go, if_neg h] at hr
      cases hadd : micro_arena_chunk_list_add used c.start sz with
      | none => rw [hadd] at hr; simp at hr
      | some used2 =>
        rw [hadd] at hr
        simp only [Option.some.injEq] at hr
        subst hr
        have hfit : sz ≤ c.size := Nat.le_of_not_lt h
        have hused2 : used2 = used ++ [⟨c.start, sz⟩] := by
          simp only [micro_arena_chunk_list_add] at hadd
          by_cases hcap : used.length + 1 ≥ MICRO_ARENA_MAX_NUM_CHUNKS
          · simp [if_pos hcap] at hadd
          · simp only [if_neg hcap, Option.some.injEq] at hadd
            exact hadd.symm
        refine ⟨0, Nat.succ_pos _, by simpa using hfit, ?_, ?_⟩
        · simp [List.set]
        · simpa using hused2

theorem micro_arena_malloc_state_cases (ma : MicroArena) (sz : Nat) :
    (micro_arena_malloc ma sz).2 = ma ∨
      ∃ i, ∃ hi : i < ma.free_chunks.length, sz ≤ ma.free_chunks[i].size ∧
        (micro_arena_malloc ma sz).2 =
          { free_chunks := ma.free_chunks.set i
              ⟨ma.free_chunks[i].start + sz, ma.free_chunks[i].size - sz⟩
            used_chunks := ma.used_chunks ++ [⟨ma.free_chunks[i].start, sz⟩] } := by
  cases hgo : micro_arena_malloc_go ma.used_chunks sz ma.free_chunks with
  | none =>
    left
    simp [micro_arena_malloc, hgo]
  | some r =>
    right
    rcases micro_arena_malloc_go_some_inv ma.used_chunks sz ma.free_chunks r
      hgo with ⟨i, hi, hfit, hfree, hused⟩
    refine ⟨i, hi, hfit, ?_⟩
    obtain ⟨h1, free2, used2⟩ := r
    simp only at hfree hused
    simp [micro_arena_malloc, hgo, hfree, hused]

theorem ArenaWF.malloc {ma : MicroArena} (wf : ArenaWF ma) (sz : Nat)
    (hsz : 1 ≤ sz) : ArenaWF (micro_arena_malloc ma sz).2 := by
  rcases micro_arena_malloc_state_cases ma sz with heq | ⟨i, hi, hfit, heq⟩
  · rw [heq]; exact wf
  · rw [heq]
    have hFF := List.pairwise_iff_getElem.mp wf.freeSep
    refine ⟨?_, ?_, ?_, ?_⟩
    · refine List.pairwise_iff_getElem.mpr ?_
      intro a b ha hb hab
      simp only [List.length_set] at ha hb
      simp only [List.getElem_set]
      by_cases hia : i = a <;> by_cases hib : i = b
      · exact absurd (hia.symm.trans hib) (Nat.ne_of_lt hab)
      · rw [if_pos hia, if_neg hib]
        have hold := hFF i b (by omega) hb (by omega)
        simp only [StrictSep] at hold ⊢
        omega
      · rw [if_neg hia, if_pos hib]
        have hold := hFF a i ha (by omega) (by omega)
        simp only [StrictSep] at hold ⊢
        omega
      · rw [if_neg hia, if_neg hib]
        exact hFF a b ha hb hab
    · refine List.pairwise_append.mpr ⟨wf.usedSep, by simp, ?_⟩
      intro d hd e he
      have he' : e = ⟨ma.free_chunks[i].start, sz⟩ := List.mem_singleton.mp he
      subst he'
      have hold := wf.crossSep ma.free_chunks[i] (List.getElem_mem hi) d hd
      simp only [WeakSep] at hold ⊢
      omega
    · intro c hc d hd
      rcases List.mem_append.mp hd with hdU | hdN
      · rcases List.mem_or_eq_of_mem_set hc with hcF | hcN
        · exact wf.crossSep c hcF d hdU
        · subst hcN
          have hold := wf.crossSep ma.free_chunks[i] (List.getElem_mem hi) d hdU
          simp only [WeakSep] at hold ⊢
          omega
      · have hdN' : d = ⟨ma.free_chunks[i].start, sz⟩ := List.mem_singleton.mp hdN
        subst hdN'
        rcases List.mem_iff_getElem.mp hc with ⟨a, ha, hceq⟩
        subst hceq
        simp only [List.length_set] at ha
        simp only [List.getElem_set]
        by_cases hia : i = a
        · rw [if_pos hia]
          simp only [WeakSep]
          omega
        · rw [if_neg hia]
          have hsep : StrictSep ma.free_chunks[a] ma.free_chunks[i] ∨
              StrictSep ma.free_chunks[i] ma.free_chunks[a] := by
            rcases Nat.lt_or_ge a i with h1 | h1
            · exact Or.inl (hFF a i ha hi h1)
            · have h2 : i < a := by omega
              exact Or.inr (hFF i a hi ha h2)
          simp only [StrictSep] at hsep
          simp only [WeakSep]
          omega
    · intro d hd
      rcases List.mem_append.mp hd with hdU | hdN
      · exact wf.usedPos d hdU
      · have hd' : d = ⟨ma.free_chunks[i].start, sz⟩ := List.mem_singleton.mp hdN
        subst hd'
        exact hsz

theorem chunk_list_add_some {l l2 : List MicroArenaChunk} {s z : Nat}
    (h : micro_arena_chunk_list_add l s z = some l2) :
    l2 = l ++ [⟨s, z⟩] := by
  by_cases hcap : l.length + 1 ≥ MICRO_ARENA_MAX_NUM_CHUNKS
  · simp [micro_arena_chunk_list_add, if_pos hcap] at h
  · simp only [micro_arena_chunk_list_add, if_neg hcap,
      Option.some.injEq] at h
    exact h.symm

theorem startsUnique_set_same_start {l : List MicroArenaChunk} {i : Nat}
    {x : MicroArenaChunk} (hu : startsUnique l) (hi : i < l.length)
    (hx : x.start = l[i].start) : startsUnique (l.set i x) := by
  have hU := List.pairwise_iff_getElem.mp hu
  refine List.pairwise_iff_getElem.mpr ?_
  intro a b ha hb hab
  simp only [List.length_set] at ha hb
  simp only [List.getElem_set]
  by_cases hia : i = a <;> by_cases hib : i = b
  · exact absurd (hia.symm.trans hib) (Nat.ne_of_lt hab)
  · rw [if_pos hia, if_neg hib, hx]
    exact hU i b (by omega) hb (by omega)
  · rw [if_neg hia, if_pos hib, hx]
    exact hU a i ha (by omega) (by omega)
  · rw [if_neg hia, if_neg hib]
    exact hU a b ha hb hab

theorem ArenaWF.free {ma : MicroArena} (wf : ArenaWF ma) (ptr : Nat) :
    ArenaWF (micro_arena_free ma ptr) := by
  cases hget : micro_arena_chunk_list_get ma.used_chunks ptr with
  | none =>
    unfold micro_arena_free
    rw [hget]
    exact wf
  | some uc =>
    obtain ⟨hucm, hucs⟩ := chunk_list_get_some hget
    have hucpos : 1 ≤ uc.size := wf.usedPos uc hucm
    have huniqU : startsUnique ma.used_chunks := startsUnique_used_of_wf wf
    have huniqF : startsUnique ma.free_chunks :=
      startsUnique_of_strictSep wf.freeSep
    have hsubU : (micro_arena_chunk_list_remove ma.used_chunks
        uc.start).Sublist ma.used_chunks := chunk_list_remove_sublist _ _
    have husedSep : List.Pairwise WeakSep
        (micro_arena_chunk_list_remove ma.used_chunks uc.start) :=
      wf.usedSep.sublist hsubU
    have husedMem : ∀ d ∈ micro_arena_chunk_list_remove ma.used_chunks
        uc.start, d ∈ ma.used_chunks := fun d hd => hsubU.mem hd
    have husedPos : ∀ d ∈ micro_arena_chunk_list_remove ma.used_chunks
        uc.start, 1 ≤ d.size := fun d hd => wf.usedPos d (husedMem d hd)
    have husedNe : ∀ d ∈ micro_arena_chunk_list_remove ma.used_chunks
        uc.start, d.start ≠ uc.start :=
      fun d hd => mem_chunk_list_remove_start_ne huniqU hd
    have hWucd : ∀ d ∈ micro_arena_chunk_list_remove ma.used_chunks
        uc.start, WeakSep uc d := by
      intro d hd
      have hne : uc ≠ d := fun h => husedNe d hd (by rw [h])
      exact List.Pairwise.forall weakSep_symm wf.usedSep hucm
        (husedMem d hd) hne
    have hFF := List.pairwise_iff_getElem.mp wf.freeSep
    cases hbi : findLastIdx (fun c => uc.start == c.start + c.size)
        ma.free_chunks with
    | some bi =>
      obtain ⟨hbilt, hbip⟩ := findLastIdx_some hbi
      have hbieq : uc.start =
          ma.free_chunks[bi].start + ma.free_chunks[bi].size := by
        simpa using hbip
      cases hai : findLastIdx (fun c => c.start == uc.start + uc.size)
          ma.free_chunks with
      | some ai =>
        obtain ⟨hailt, haip⟩ := findLastIdx_some hai
        have haieq : ma.free_chunks[ai].start = uc.start + uc.size := by
          simpa using haip
        have hstate : micro_arena_free ma ptr =
            { free_chunks := micro_arena_chunk_list_remove
                (ma.free_chunks.set bi ⟨ma.free_chunks[bi].start,
                  ma.free_chunks[bi].size +
                    (uc.size + ma.free_chunks[ai].size)⟩)
                ma.free_chunks[bi].start
              used_chunks := micro_arena_chunk_list_remove ma.used_chunks
                uc.start } := by
          unfold micro_arena_free
          rw [hget]
          simp only [hbi, hai, List.getD_eq_getElem ma.free_chunks ⟨0, 0⟩
            hbilt, List.getD_eq_getElem ma.free_chunks ⟨0, 0⟩ hailt]
        rw [hstate]
        have huniqF1 : startsUnique (ma.free_chunks.set bi
            ⟨ma.free_chunks[bi].start, ma.free_chunks[bi].size +
              (uc.size + ma.free_chunks[ai].size)⟩) :=
          startsUnique_set_same_start huniqF hbilt rfl
        have hrm : micro_arena_chunk_list_remove
            (ma.free_chunks.set bi ⟨ma.free_chunks[bi].start,
              ma.free_chunks[bi].size +
                (uc.size + ma.free_chunks[ai].size)⟩)
            ma.free_chunks[bi].start =
            (ma.free_chunks.set bi ⟨ma.free_chunks[bi].start,
              ma.free_chunks[bi].size +
                (uc.size + ma.free_chunks[ai].size)⟩).eraseIdx bi := by
          refine chunk_list_remove_eq_eraseIdx huniqF1 bi
            (by simpa [List.length_set] using hbilt) ?_
          simp [List.get_eq_getElem, List.getElem_set]
        rw [hrm, eraseIdx_set_same]
        exact ⟨wf.freeSep.sublist (List.eraseIdx_sublist _ _), husedSep,
          fun c hc d hd => wf.crossSep c
            ((List.eraseIdx_sublist _ _).mem hc) d (husedMem d hd),
          husedPos⟩
      | none =>
        have hanone : ∀ c ∈ ma.free_chunks,
            c.start ≠ uc.start + uc.size := by
          have hn := (findLastIdx_eq_none_iff _ _).mp hai
          intro c hc
          simpa using hn c hc
        have hstate : micro_arena_free ma ptr =
            { free_chunks := ma.free_chunks.set bi
                ⟨ma.free_chunks[bi].start,
                  ma.free_chunks[bi].size + uc.size⟩
              used_chunks := micro_arena_chunk_list_remove ma.used_chunks
                uc.start } := by
          unfold micro_arena_free
          rw [hget]
          simp only [hbi, hai, List.getD_eq_getElem ma.free_chunks ⟨0, 0⟩
            hbilt]
        rw [hstate]
        refine ⟨?_, husedSep, ?_, husedPos⟩
        · refine List.pairwise_iff_getElem.mpr ?_
          intro a b ha hb hab
          simp only [List.length_set] at ha hb
          simp only [List.getElem_set]
          by_cases hia : bi = a <;> by_cases hib : bi = b
          · exact absurd (hia.symm.trans hib) (Nat.ne_of_lt hab)
          · rw [if_pos hia, if_neg hib]
            have hold := hFF bi b (by omega) hb (by omega)
            have hcrossb := wf.crossSep ma.free_chunks[b]
              (List.getElem_mem hb) uc hucm
            have hanb := hanone ma.free_chunks[b] (List.getElem_mem hb)
            simp only [StrictSep] at hold ⊢
            simp only [WeakSep] at hcrossb
            omega
          · rw [if_neg hia, if_pos hib]
            have hold := hFF a bi ha (by omega) (by omega)
            have hcrossa := wf.crossSep ma.free_chunks[a]
              (List.getElem_mem ha) uc hucm
            have hana := hanone ma.free_chunks[a] (List.getElem_mem ha)
            simp only [StrictSep] at hold ⊢
            simp only [WeakSep] at hcrossa
            omega
          · rw [if_neg hia, if_neg hib]
            exact hFF a b ha hb hab
        · intro c hc d hd
          have hdU := husedMem d hd
          have hWd := hWucd d hd
          have hdpos := husedPos d hd
          rcases List.mem_iff_getElem.mp hc with ⟨a, ha, hceq⟩
          subst hceq
          simp only [List.length_set] at ha
          simp only [List.getElem_set]
          by_cases hia : bi = a
          · rw [if_pos hia]
            have hcrossOld := wf.crossSep ma.free_chunks[bi]
              (List.getElem_mem hbilt) d hdU
            simp only [WeakSep] at hcrossOld hWd ⊢
            omega
          · rw [if_neg hia]
            exact wf.crossSep ma.free_chunks[a] (List.getElem_mem ha) d hdU
    | none =>
      have hbnone : ∀ c ∈ ma.free_chunks,
          uc.start ≠ c.start + c.size := by
        have hn := (findLastIdx_eq_none_iff _ _).mp hbi
        intro c hc
        simpa using hn c hc
      cases hai : findLastIdx (fun c => c.start == uc.start + uc.size)
          ma.free_chunks with
      | some ai =>
        obtain ⟨hailt, haip⟩ := findLastIdx_some hai
        have haieq : ma.free_chunks[ai].start = uc.start + uc.size := by
          simpa using haip
        have hstate : micro_arena_free ma ptr =
            { free_chunks := ma.free_chunks.set ai
                ⟨uc.start, ma.free_chunks[ai].size + uc.size⟩
              used_chunks := micro_arena_chunk_list_remove ma.used_chunks
                uc.start } := by
          unfold micro_arena_free
          rw [hget]
          simp only [hbi, hai, List.getD_eq_getElem ma.free_chunks ⟨0, 0⟩
            hailt]
        rw [hstate]
        refine ⟨?_, husedSep, ?_, husedPos⟩
        · refine List.pairwise_iff_getElem.mpr ?_
          intro a b ha hb hab
          simp only [List.length_set] at ha hb
          simp only [List.getElem_set]
          by_cases hia : ai = a <;> by_cases hib : ai = b
          · exact absurd (hia.symm.trans hib) (Nat.ne_of_lt hab)
          · rw [if_pos hia, if_neg hib]
            have hold := hFF ai b (by omega) hb (by omega)
            have hcrossb := wf.crossSep ma.free_chunks[b]
              (List.getElem_mem hb) uc hucm
            have hbnb := hbnone ma.free_chunks[b] (List.getElem_mem hb)
            simp only [StrictSep] at hold ⊢
            simp only [WeakSep] at hcrossb
            omega
          · rw [if_neg hia, if_pos hib]
            have hold := hFF a ai ha (by omega) (by omega)
            have hcrossa := wf.crossSep ma.free_chunks[a]
              (List.getElem_mem ha) uc hucm
            have hbna := hbnone ma.free_chunks[a] (List.getElem_mem ha)
            simp only [StrictSep] at hold ⊢
            simp only [WeakSep] at hcrossa
            omega
          · rw [if_neg hia, if_neg hib]
            exact hFF a b ha hb hab
        · intro c hc d hd
          have hdU := husedMem d hd
          have hWd := hWucd d hd
          have hdpos := husedPos d hd
          rcases List.mem_iff_getElem.mp hc with ⟨a, ha, hceq⟩
          subst hceq
          simp only [List.length_set] at ha
          simp only [List.getElem_set]
          by_cases hia : ai = a
          · rw [if_pos hia]
            have hcrossOld := wf.crossSep ma.free_chunks[ai]
              (List.getElem_mem hailt) d hdU
            simp only [WeakSep] at hcrossOld hWd ⊢
            omega
          · rw [if_neg hia]
            exact wf.crossSep ma.free_chunks[a] (List.getElem_mem ha) d hdU
      | none =>
        have hanone : ∀ c ∈ ma.free_chunks,
            c.start ≠ uc.start + uc.size := by
          have hn := (findLastIdx_eq_none_iff _ _).mp hai
          intro c hc
          simpa using hn c hc
        have hstate : micro_arena_free ma ptr =
            { free_chunks :=
                match micro_arena_chunk_list_add ma.free_chunks uc.start
                    uc.size with
                | none => ma.free_chunks
                | some f2 => f2
              used_chunks := micro_arena_chunk_list_remove ma.used_chunks
                uc.start } := by
          unfold micro_arena_free
          rw [hget]
          simp only [hbi, hai]
        rw [hstate]
        cases hadd : micro_arena_chunk_list_add ma.free_chunks uc.start
            uc.size with
        | none =>
          exact ⟨wf.freeSep, husedSep,
            fun c hc d hd => wf.crossSep c hc d (husedMem d hd), husedPos⟩
        | some f2 =>
          have hf2 : f2 = ma.free_chunks ++ [⟨uc.start, uc.size⟩] :=
            chunk_list_add_some hadd
          subst hf2
          refine ⟨?_, husedSep, ?_, husedPos⟩
          · refine List.pairwise_append.mpr ⟨wf.freeSep, by simp, ?_⟩
            intro c hcF e he
            have he' : e = ⟨uc.start, uc.size⟩ := List.mem_singleton.mp he
            subst he'
            have hanonec := hanone c hcF
            have hbnonec := hbnone c hcF
            have hcross := wf.crossSep c hcF uc hucm
            simp only [StrictSep]
            simp only [WeakSep] at hcross
            omega
          · intro c hc d hd
            rcases List.mem_append.mp hc with hcF | hcN
            · exact wf.crossSep c hcF d (husedMem d hd)
            · have hc' : c = ⟨uc.start, uc.size⟩ := List.mem_singleton.mp hcN
              subst hc'
              exact hWucd d hd

theorem ArenaWF.init (ma : MicroArena) : ArenaWF (micro_arena_init ma) := by
  have h : micro_arena_init ma =
      { free_chunks := [⟨0, MICRO_ARENA_STACK_MEM_SIZE⟩]
        used_chunks := [] } := rfl
  rw [h]
  refine ⟨by simp, by simp, ?_, by simp⟩
  intro c _ d hd
  simp at hd

theorem ArenaWF.realloc {ma : MicroArena} (wf : ArenaWF ma) (p : Option Nat)
    (s : Nat) (hs : 1 ≤ s) : ArenaWF (micro_arena_realloc ma p s).2 := by
  cases p with
  | none => exact wf.malloc s hs
  | some q =>
    show ArenaWF (micro_arena_realloc ma (some q) s).2
    unfold micro_arena_realloc
    cases hg : micro_arena_chunk_list_get ma.used_chunks q with
    | none =>
      simp only [hg]
      exact wf
    | some uc2 =>
      cases hm : micro_arena_malloc ma s with
      | mk h1 ma2 =>
        have h2 := wf.malloc s hs
        rw [hm] at h2
        cases h1 with
        | none =>
          simp only [hg, hm]
          exact h2
        | some hptr =>
          simp only [hg, hm]
          exact h2.free q

theorem ArenaWF.applyOp {ma : MicroArena} (wf : ArenaWF ma) (op : ArenaOp)
    (hop : op.posSize) : ArenaWF (applyOp ma op) := by
  cases op with
  | mallocOp s => exact wf.malloc s hop
  | freeOp p => exact wf.free p
  | callocOp n s => exact wf.malloc ((s * n) % 2 ^ 64) hop
  | reallocOp p s => exact wf.realloc p s hop
  | reallocarrayOp p n s => exact wf.realloc p ((n * s) % 2 ^ 64) hop
  | initOp => exact ArenaWF.init ma

theorem arenaWF_foldl :
    ∀ (ops : List ArenaOp) (s : MicroArena), ArenaWF s →
      (∀ op ∈ ops, op.posSize) → ArenaWF (ops.foldl applyOp s) := by
  intro ops
  induction ops with
  | nil => intro s hs _; exact hs
  | cons op rest ih =>
    intro s hs hpos
    exact ih (applyOp s op)
      (ArenaWF.applyOp hs op (hpos op (List.mem_cons_self op rest)))
      (fun o ho => hpos o (List.mem_cons_of_mem op ho))

theorem arenaWF_runOps (ops : List ArenaOp)
    (hpos : ∀ op ∈ ops, op.posSize) : ArenaWF (runOps ops) :=
  arenaWF_foldl ops arenaInit (ArenaWF.init ⟨[], []⟩) hpos

/-- C3 (amended): for every state reachable from initialize by a
sequence of public allocator operations in which every allocation
request passed to the internal allocate step is nonzero, no two entries
within the same directory (free or used) have the same start value.
(With zero-size requests allowed the claim fails: see the
counterexample.) -/
theorem C3_starts_unique_on_positive_traces (ops : List ArenaOp)
    (hpos : ∀ op ∈ ops, op.posSize) :
    startsUnique (runOps ops).free_chunks ∧
      startsUnique (runOps ops).used_chunks := by
  have hwf : ArenaWF (runOps ops) := arenaWF_runOps ops hpos
  exact ⟨startsUnique_of_strictSep hwf.freeSep, startsUnique_used_of_wf hwf⟩

/-- Witness for the amended C3 at a concrete trace mixing allocation,
release and resize. -/
theorem C3_starts_unique_on_positive_traces_witness :
    (∀ op ∈ [ArenaOp.mallocOp 40, ArenaOp.mallocOp 10, ArenaOp.freeOp 0,
        ArenaOp.reallocOp (some 40) 20], op.posSize) ∧
      (startsUnique (runOps [ArenaOp.mallocOp 40, ArenaOp.mallocOp 10,
          ArenaOp.freeOp 0, ArenaOp.reallocOp (some 40) 20]).free_chunks ∧
        startsUnique (runOps [ArenaOp.mallocOp 40, ArenaOp.mallocOp 10,
          ArenaOp.freeOp 0, ArenaOp.reallocOp (some 40) 20]).used_chunks) :=
  ⟨by simp [ArenaOp.posSize],
    C3_starts_unique_on_positive_traces _ (by simp [ArenaOp.posSize])⟩
